import Mathlib

/-!
# linux-serial-test: sequence codec, stream engine, divisor solver, loop gates

A shallow embedding of `src/linux-serial-test.c`.

* `unsigned char` values are natural numbers, every increment reduced `% 256`.
* `int` values are integers; every `int` operation whose result can leave the
  32-bit range is passed through `wrap32` (two's complement), and `/` on `int`
  is `Int.tdiv` (truncation toward zero, as in C).
* the `long long` session counters are integers; the handlers grow them by at
  most 1024 per call and apply no reduction, while the exit status, which
  combines all three, reduces each `long long` operation through `wrap64`.
* the globals (`_cl_*`, `_read_count_value`, ...) are explicit records that the
  functions take and return; `exit(1)` is `Except.error 1`.
* the device is scripted: a `read` delivers a list of bytes (or fails), a
  `write` returns the next value of a list of return values, and the bytes the
  device accepted are appended to a wire log.
-/

namespace SerialTest

/-! ## Data model -/

/-- The command line flags (`_cl_*` globals) that the modelled functions read. -/
structure Options where
  cl_ascii_range : Bool
  cl_stop_on_error : Bool
  cl_tx_bytes : Int
  cl_no_rx : Bool
  cl_no_tx : Bool
  cl_rx_delay : Int
  cl_tx_delay : Int
  deriving DecidableEq

/-- The module variables of the stream engine: both sequence cursors, the
transmit buffer with its size, and the three session counters. -/
structure StreamState where
  write_count_value : Nat
  read_count_value : Nat
  write_data : List Nat
  write_size : Int
  write_count : Int
  read_count : Int
  error_count : Int
  deriving DecidableEq

/-! ## Sequence codec -/

/-- Successor of a sequence value, `next_count_value`: `c++` on an
`unsigned char`, then the ASCII wrap `127 -> 32` when `_cl_ascii_range` is set. -/
def next_count_value (ascii_range : Bool) (c : Nat) : Nat :=
  let c := (c + 1) % 256
  if ascii_range && c == 127 then 32 else c

/-! ## Receive path -/

/-- Body of the verification loop of `process_read_data` for one received byte
`b = rb[i]`: on a mismatch the error counter grows, `exit(1)` is taken under
stop-on-error, and the cursor is set to the received byte; in every case the
cursor is then advanced. -/
def verify_byte (o : Options) (st : StreamState) (b : Nat) : Except Nat StreamState :=
  if b ≠ st.read_count_value then
    let st1 := { st with error_count := st.error_count + 1 }
    if o.cl_stop_on_error then
      Except.error 1
    else
      let st2 := { st1 with read_count_value := b }
      Except.ok { st2 with read_count_value := next_count_value o.cl_ascii_range st2.read_count_value }
  else
    Except.ok { st with read_count_value := next_count_value o.cl_ascii_range st.read_count_value }

/-- The loop `for (i = 0; i < c; i++)` of `process_read_data` over the bytes
delivered by `read`. -/
def verify_loop (o : Options) : List Nat → StreamState → Except Nat StreamState
  | [], st => Except.ok st
  | b :: rest, st =>
    match verify_byte o st b with
    | Except.error e => Except.error e
    | Except.ok st1 => verify_loop o rest st1

/-- Receive handler `process_read_data` (the hex and ASCII dumps and the
mismatch line print only and are left out). The argument `rd` is the outcome of
`read(_fd, &rb, sizeof(rb))`: `none` when it returned a negative value,
`some rb` when it delivered the bytes `rb` (so `c = rb.length`). -/
def process_read_data (o : Options) (st : StreamState) (rd : Option (List Nat)) :
    Except Nat StreamState :=
  match rd with
  | none => Except.ok st
  | some rb =>
    if 0 < rb.length then
      match verify_loop o rb st with
      | Except.error e => Except.error e
      | Except.ok st1 => Except.ok { st1 with read_count := st1.read_count + rb.length }
    else
      Except.ok st

/-! ## Transmit path -/

/-- The fill loop `for (i = 0; i < _write_size; i++)` of `process_write_data`:
returns the buffer contents and the cursor after the loop. -/
def fill_write_data (ascii_range : Bool) : Nat → Nat → List Nat × Nat
  | 0, c => ([], c)
  | n + 1, c =>
    let r := fill_write_data ascii_range n (next_count_value ascii_range c)
    (c :: r.1, r.2)

/-- The serial device as the transmit path sees it: the values the coming
`write` calls will return (a negative value is a failed call, `errno` set), and
the bytes accepted so far, in order. -/
structure Device where
  write_returns : List Int
  wire : List Nat
  deriving DecidableEq

/-- The `do ... while (repeat)` loop of `process_write_data`, one `write` return
value consumed per pass; `count` and `rep` are the locals `count` and `repeat`.
A pass fills the buffer, writes it, turns a negative return into `c = 0`, adds
`c` to `count`, and on `c < _write_size` rewinds the cursor to `_write_data[c]`
and clears `repeat`. The lines "write failed" and "wrote ... bytes" print only
and are left out. The result is `none` when the script of return values ends
before the loop does. -/
def write_loop (o : Options) :
    List Int → StreamState → Int → Bool → List Nat →
      Option (StreamState × Int × List Int × List Nat)
  | [], _, _, _, _ => none
  | r :: rs, st, count, rep, wire =>
    let f := fill_write_data o.cl_ascii_range st.write_size.toNat st.write_count_value
    let st1 := { st with write_data := f.1, write_count_value := f.2 }
    let c : Int := if r < 0 then 0 else r
    let count1 := count + c
    let wire1 := wire ++ st1.write_data.take c.toNat
    if c < st1.write_size then
      some ({ st1 with write_count_value := st1.write_data.getD c.toNat 0 }, count1, rs, wire1)
    else if rep then
      write_loop o rs st1 count1 rep wire1
    else
      some (st1, count1, rs, wire1)

/-- Transmit handler `process_write_data`: the loop started with `count = 0` and
`repeat = (_cl_tx_bytes == 0)`, then `_write_count += count`. -/
def process_write_data (o : Options) (st : StreamState) (d : Device) :
    Option (StreamState × Device) :=
  match write_loop o d.write_returns st 0 (decide (o.cl_tx_bytes = 0)) d.wire with
  | none => none
  | some (st1, count, rs, wire1) =>
    some ({ st1 with write_count := st1.write_count + count }, ⟨rs, wire1⟩)

/-- The stream state `main` sets up before the event loop:
`_write_size = (_cl_tx_bytes == 0) ? 1024 : _cl_tx_bytes`, a freshly allocated
buffer (taken as zeroes), both cursors 32 under `_cl_ascii_range` and 0
otherwise, all counters 0. -/
def initial_state (o : Options) : StreamState :=
  let size : Int := if o.cl_tx_bytes = 0 then 1024 else o.cl_tx_bytes
  let cursor : Nat := if o.cl_ascii_range then 32 else 0
  { write_count_value := cursor
    read_count_value := cursor
    write_data := List.replicate size.toNat 0
    write_size := size
    write_count := 0
    read_count := 0
    error_count := 0 }

/-! ## Machine integers -/

/-- Reduction of an integer to the 32-bit `int` range, two's complement. -/
def wrap32 (x : Int) : Int := (x + 2147483648) % 4294967296 - 2147483648

/-- Reduction of an integer to the 64-bit `long long` range, two's complement. -/
def wrap64 (x : Int) : Int :=
  (x + 9223372036854775808) % 18446744073709551616 - 9223372036854775808

/-! ## Divisor solver -/

/-- How a call of `set_baud_divisor` ends. -/
inductive BaudOutcome where
  /-- Failure of `ioctl(TIOCGSERIAL)`: `exit(1)`. -/
  | tiocgserial_failed
  /-- An integer division by zero (line 97 with `speed = 0`, line 98 with
  `custom_divisor = 0`): the process is killed. -/
  | divide_by_zero
  /-- The line "Cannot set speed to `speed`, closest is `closest`", then `exit(1)`. -/
  | cannot_set (speed closest : Int)
  /-- The divisor passed the check but `ioctl(TIOCSSERIAL)` failed: `exit(1)`. -/
  | tiocsserial_failed (closest baud_base divisor : Int)
  /-- The divisor passed the check and was installed; the values are those of
  the line "closest baud = ..., base = ..., divisor = ...". -/
  | installed (closest baud_base divisor : Int)
  deriving DecidableEq

/-- The expression `(ss.baud_base + (speed/2)) / speed` of `set_baud_divisor`
(for `speed` non-zero). -/
def custom_divisor (speed baud_base : Int) : Int :=
  wrap32 (Int.tdiv (wrap32 (baud_base + Int.tdiv speed 2)) speed)

/-- Custom divisor setup, `set_baud_divisor`. `gserial` is what
`ioctl(TIOCGSERIAL)` delivers: `none`
on failure, `some baud_base` otherwise; `sserial_ok` tells whether
`ioctl(TIOCSSERIAL)` succeeds. -/
def set_baud_divisor (speed : Int) (gserial : Option Int) (sserial_ok : Bool) : BaudOutcome :=
  match gserial with
  | none => BaudOutcome.tiocgserial_failed
  | some baud_base =>
    if speed = 0 then BaudOutcome.divide_by_zero
    else
      let divisor := custom_divisor speed baud_base
      if divisor = 0 then BaudOutcome.divide_by_zero
      else
        let closest_speed := wrap32 (Int.tdiv baud_base divisor)
        if closest_speed < Int.tdiv (wrap32 (speed * 98)) 100 ∨
            closest_speed > Int.tdiv (wrap32 (speed * 102)) 100 then
          BaudOutcome.cannot_set speed closest_speed
        else if sserial_ok then
          BaudOutcome.installed closest_speed baud_base divisor
        else
          BaudOutcome.tiocsserial_failed closest_speed baud_base divisor

/-! ## Exit status -/

/-- The last two lines of `main`:
`result = llabs(_write_count - _read_count) + _error_count;`
`return (result > 125) ? 125 : (int)result;`. -/
def main_exit_status (st : StreamState) : Int :=
  let difference : Int := wrap64 (st.write_count - st.read_count)
  let result : Int := wrap64 (wrap64 (difference.natAbs : Int) + st.error_count)
  if result > 125 then 125 else wrap32 result

/-! ## Event loop gates -/

/-- Seconds and nanoseconds of a `struct timespec`. -/
structure timespec where
  tv_sec : Int
  tv_nsec : Int
  deriving DecidableEq

/-- Difference `t1 - t2` in whole milliseconds, `diff_ms`; the `long` value is
converted to `int` on return. -/
def diff_ms (t1 t2 : timespec) : Int :=
  let sec := t1.tv_sec - t2.tv_sec
  let nsec := t1.tv_nsec - t2.tv_nsec
  let sec1 := if nsec < 0 then sec - 1 else sec
  let nsec1 := if nsec < 0 then nsec + 1000000000 else nsec
  wrap32 (sec1 * 1000 + Int.tdiv nsec1 1000000)

/-- The part of the locals of `main` that the modelled gates use: the stream
state and three of the activity timestamps. -/
structure LoopState where
  stream : StreamState
  last_read : timespec
  last_write : timespec
  last_timeout : timespec
  deriving DecidableEq

/-- The pieces of the inactivity line, each with the milliseconds it reports. -/
inductive Message where
  | no_data_received (ms : Int)
  | no_data_transmitted (ms : Int)
  | newline
  deriving DecidableEq

/-- The block of the event loop that starts at "Has it been at least a second
since we reported a timeout?": returns the state (with `last_timeout` reset
when a line was printed) and what was printed. -/
def inactivity_check (o : Options) (ls : LoopState) (current : timespec) :
    LoopState × List Message :=
  if diff_ms current ls.last_timeout > 1000 then
    let rx_timeout0 : Bool := !o.cl_no_rx && decide (diff_ms current ls.last_read > 2000)
    let tx_timeout : Bool := !o.cl_no_tx && decide (diff_ms current ls.last_write > 2000)
    let rx_timeout : Bool :=
      if o.cl_no_tx && decide (ls.stream.write_count ≠ 0) &&
          decide (ls.stream.write_count = ls.stream.read_count) then false else rx_timeout0
    if rx_timeout || tx_timeout then
      let m1 := if rx_timeout then [Message.no_data_received (diff_ms current ls.last_read)] else []
      let m2 :=
        if tx_timeout then [Message.no_data_transmitted (diff_ms current ls.last_write)] else []
      ({ ls with last_timeout := current }, m1 ++ m2 ++ [Message.newline])
    else
      (ls, [])
  else
    (ls, [])

/-- Time from `t2` to `t1` in nanoseconds, read off the two timestamps. -/
def elapsed_ns (t1 t2 : timespec) : Int :=
  (t1.tv_sec - t2.tv_sec) * 1000000000 + (t1.tv_nsec - t2.tv_nsec)

/-- Number of bytes a `write` return value stands for once the code has
replaced a negative return by `c = 0`. -/
def accepted (r : Int) : Nat := (if r < 0 then 0 else r).toNat

/-! ## Theorems -/

/-! ### Sequence codec -/

theorem next_count_value_mod (c : Nat) : next_count_value false c = (c + 1) % 256 := by
  simp [next_count_value]

theorem iterate_mod (k c : Nat) (hc : c < 256) :
    (next_count_value false)^[k] c = (c + k) % 256 := by
  induction k generalizing c with
  | zero => simp [Nat.mod_eq_of_lt hc]
  | succ k ih =>
    rw [Function.iterate_succ_apply, next_count_value_mod, ih _ (Nat.mod_lt _ (by norm_num))]
    omega

theorem next_count_value_window (b : Nat) (hlo : 32 ≤ b) (hhi : b ≤ 126) :
    next_count_value true b = 32 + (b - 32 + 1) % 95 := by
  unfold next_count_value
  by_cases h : b = 126
  · subst h; decide
  · have h1 : (b + 1) % 256 = b + 1 := by omega
    have h2 : (b - 32 + 1) % 95 = b - 32 + 1 := by omega
    simp only [h1, h2]
    rw [if_neg (by simp; omega)]
    omega

theorem iterate_window (k b : Nat) (hlo : 32 ≤ b) (hhi : b ≤ 126) :
    (next_count_value true)^[k] b = 32 + (b - 32 + k) % 95 := by
  induction k generalizing b with
  | zero =>
    have : (b - 32) % 95 = b - 32 := by omega
    simp [this]; omega
  | succ k ih =>
    rw [Function.iterate_succ_apply, next_count_value_window b hlo hhi]
    have hm : (b - 32 + 1) % 95 < 95 := Nat.mod_lt _ (by norm_num)
    rw [ih _ (by omega) (by omega)]
    omega

/-- C7: the cycle length of `next_count_value` matches the policy. Under the
modulo-256 policy 256 applications return every byte to itself (and no smaller
positive number does); under the ASCII-window policy 95 applications return
every byte of the window 32..126 to itself and no smaller positive number does. -/
theorem cycle_length_matches_policy :
    (∀ b : Nat, b < 256 →
      (next_count_value false)^[256] b = b ∧
      ∀ k : Nat, 0 < k → k < 256 → (next_count_value false)^[k] b ≠ b) ∧
    (∀ b : Nat, 32 ≤ b → b ≤ 126 →
      (next_count_value true)^[95] b = b ∧
      ∀ k : Nat, 0 < k → k < 95 → (next_count_value true)^[k] b ≠ b) := by
  refine ⟨fun b hb => ⟨?_, fun k hk0 hk => ?_⟩, fun b hlo hhi => ⟨?_, fun k hk0 hk => ?_⟩⟩
  · rw [iterate_mod _ _ hb]; omega
  · rw [iterate_mod _ _ hb]; omega
  · rw [iterate_window _ _ hlo hhi]; omega
  · rw [iterate_window _ _ hlo hhi]; omega

theorem cycle_length_matches_policy_witness :
    ((next_count_value false)^[256] 200 = 200 ∧ (next_count_value false)^[128] 200 ≠ 200) ∧
    ((next_count_value true)^[95] 126 = 126 ∧ (next_count_value true)^[94] 126 ≠ 126) :=
  ⟨⟨(cycle_length_matches_policy.1 200 (by decide)).1,
    (cycle_length_matches_policy.1 200 (by decide)).2 128 (by decide) (by decide)⟩,
   ⟨(cycle_length_matches_policy.2 126 (by decide) (by decide)).1,
    (cycle_length_matches_policy.2 126 (by decide) (by decide)).2 94 (by decide) (by decide)⟩⟩

/-! ### Fill loop -/

theorem fill_write_data_snd (a : Bool) (n c : Nat) :
    (fill_write_data a n c).2 = (next_count_value a)^[n] c := by
  induction n generalizing c with
  | zero => rfl
  | succ n ih => simp [fill_write_data, ih]

theorem fill_write_data_length (a : Bool) (n c : Nat) :
    (fill_write_data a n c).1.length = n := by
  induction n generalizing c with
  | zero => rfl
  | succ n ih => simp [fill_write_data, ih]

theorem fill_write_data_getElem? (a : Bool) (n c j : Nat) (hj : j < n) :
    (fill_write_data a n c).1[j]? = some ((next_count_value a)^[j] c) := by
  induction n generalizing c j with
  | zero => omega
  | succ n ih =>
    cases j with
    | zero => simp [fill_write_data]
    | succ j => simp [fill_write_data, ih _ j (by omega)]

theorem fill_write_data_add (a : Bool) (m k c : Nat) :
    (fill_write_data a (m + k) c).1 =
      (fill_write_data a m c).1 ++ (fill_write_data a k ((next_count_value a)^[m] c)).1 := by
  induction m generalizing c with
  | zero => simp [fill_write_data]
  | succ m ih =>
    have h : m + 1 + k = (m + k) + 1 := by omega
    rw [h]
    simp [fill_write_data, ih]

theorem fill_write_data_set (a : Bool) (v : Nat) (i n c : Nat) (hi : i < n) :
    (fill_write_data a n c).1.set i v =
      (fill_write_data a i c).1 ++
        v :: (fill_write_data a (n - i - 1) ((next_count_value a)^[i + 1] c)).1 := by
  induction i generalizing n c with
  | zero =>
    obtain ⟨m, rfl⟩ : ∃ m, n = m + 1 := ⟨n - 1, by omega⟩
    simp [fill_write_data]
  | succ i ih =>
    obtain ⟨m, rfl⟩ : ∃ m, n = m + 1 := ⟨n - 1, by omega⟩
    have h : m + 1 - (i + 1) - 1 = m - i - 1 := by omega
    rw [h]
    simp [fill_write_data, ih m (next_count_value a c) (by omega)]

/-! ### Receive path -/

theorem verify_loop_append (o : Options) (xs ys : List Nat) (st : StreamState) :
    verify_loop o (xs ++ ys) st =
      match verify_loop o xs st with
      | Except.error e => Except.error e
      | Except.ok st1 => verify_loop o ys st1 := by
  induction xs generalizing st with
  | nil => simp [verify_loop]
  | cons x xs ih =>
    simp only [List.cons_append, verify_loop]
    cases verify_byte o st x with
    | error e => rfl
    | ok st1 => exact ih st1

/-- A buffer that continues the expected cursor passes without an error. -/
theorem verify_loop_clean (o : Options) (n : Nat) (st : StreamState) :
    verify_loop o (fill_write_data o.cl_ascii_range n st.read_count_value).1 st =
      Except.ok { st with
        read_count_value := (next_count_value o.cl_ascii_range)^[n] st.read_count_value } := by
  induction n generalizing st with
  | zero => rfl
  | succ n ih =>
    simp only [fill_write_data, verify_loop, verify_byte, ne_eq, not_true_eq_false, if_false]
    have := ih { st with
      read_count_value := next_count_value o.cl_ascii_range st.read_count_value }
    simpa using this

/-- A non-empty buffer that continues some value `e` resynchronises the cursor
to the sequence from `e`, at the price of one error when the cursor was not `e`. -/
theorem verify_loop_resync (o : Options) (hstop : o.cl_stop_on_error = false)
    (m e : Nat) (st : StreamState) :
    verify_loop o (fill_write_data o.cl_ascii_range (m + 1) e).1 st =
      Except.ok { st with
        error_count := st.error_count + (if e ≠ st.read_count_value then 1 else 0)
        read_count_value := (next_count_value o.cl_ascii_range)^[m + 1] e } := by
  simp only [fill_write_data, verify_loop, verify_byte, hstop]
  by_cases h : e = st.read_count_value
  · subst h
    have := verify_loop_clean o m { st with
      read_count_value := next_count_value o.cl_ascii_range st.read_count_value }
    simpa using this
  · have := verify_loop_clean o m { st with
      error_count := st.error_count + 1
      read_count_value := next_count_value o.cl_ascii_range e }
    simpa [h] using this

/-- C3: when the receive buffer holds the `n` successive values starting at the
expected cursor `c` (the buffer the transmit fill produces from cursor `c`),
`process_read_data` adds 0 to `error_count`, adds `n` to `bytes_read` and leaves
the read cursor at `next_count_value` applied `n` times to `c`. -/
theorem lossless_chunk_verifies (o : Options) (st : StreamState) (n : Nat) :
    process_read_data o st
        (some (fill_write_data o.cl_ascii_range n st.read_count_value).1) =
      Except.ok { st with
        error_count := st.error_count + 0
        read_count := st.read_count + n
        read_count_value := (next_count_value o.cl_ascii_range)^[n] st.read_count_value } := by
  unfold process_read_data
  simp only [fill_write_data_length, verify_loop_clean]
  cases n with
  | zero => simp
  | succ n => simp

/-- C1 (as the code behaves): the buffer continues the expected cursor `c`
except for one byte `v` at position `i`, stop-on-error off. `bytes_read` grows
by `n`. When the corrupted byte is the last one, `error_count` grows by 1 and the
cursor is `next_count_value v`. Otherwise the byte after it is compared with
`next_count_value v`: `error_count` grows by 2, or by 1 when `next_count_value v`
happens to be the next value of the original sequence, and the cursor ends on
the original sequence, `next_count_value` applied `n` times to `c`. Under the
modulo-256 policy the second error always occurs. -/
theorem single_corruption_resync (o : Options) (st : StreamState) (n i v : Nat)
    (hstop : o.cl_stop_on_error = false) (hi : i < n)
    (hv : v ≠ (next_count_value o.cl_ascii_range)^[i] st.read_count_value) :
    process_read_data o st
        (some ((fill_write_data o.cl_ascii_range n st.read_count_value).1.set i v)) =
      Except.ok { st with
        error_count := st.error_count +
          (if i + 1 < n ∧ next_count_value o.cl_ascii_range v ≠
              (next_count_value o.cl_ascii_range)^[i + 1] st.read_count_value
            then 2 else 1)
        read_count := st.read_count + n
        read_count_value :=
          if i + 1 < n then (next_count_value o.cl_ascii_range)^[n] st.read_count_value
          else next_count_value o.cl_ascii_range v } ∧
    (o.cl_ascii_range = false → st.read_count_value < 256 → v < 256 → i + 1 < n →
      next_count_value o.cl_ascii_range v ≠
        (next_count_value o.cl_ascii_range)^[i + 1] st.read_count_value) := by
  constructor
  · have hlen : ((fill_write_data o.cl_ascii_range n st.read_count_value).1.set i v).length = n := by
      simp [fill_write_data_length]
    have hn0 : 0 < n := by omega
    have key : verify_loop o ((fill_write_data o.cl_ascii_range n st.read_count_value).1.set i v) st =
        Except.ok { st with
          error_count := st.error_count +
            (if i + 1 < n ∧ next_count_value o.cl_ascii_range v ≠
                (next_count_value o.cl_ascii_range)^[i + 1] st.read_count_value
              then 2 else 1)
          read_count_value :=
            if i + 1 < n then (next_count_value o.cl_ascii_range)^[n] st.read_count_value
            else next_count_value o.cl_ascii_range v } := by
      rw [fill_write_data_set _ _ _ _ _ hi, verify_loop_append, verify_loop_clean]
      simp only [verify_loop, verify_byte, hstop, ne_eq, hv, not_false_eq_true, if_true]
      by_cases hlast : i + 1 < n
      · obtain ⟨m, hm⟩ : ∃ m, n - i - 1 = m + 1 := ⟨n - i - 2, by omega⟩
        have hn : n = (m + 1) + (i + 1) := by omega
        have hit : (next_count_value o.cl_ascii_range)^[m + 1]
            ((next_count_value o.cl_ascii_range)^[i + 1] st.read_count_value) =
            (next_count_value o.cl_ascii_range)^[n] st.read_count_value := by
          rw [hn, Function.iterate_add_apply (next_count_value o.cl_ascii_range) (m + 1) (i + 1)]
        simp only [hm, Bool.false_eq_true, if_false, verify_loop_resync o hstop, hit, hlast,
          true_and, if_true]
        by_cases hq : next_count_value o.cl_ascii_range v =
            (next_count_value o.cl_ascii_range)^[i + 1] st.read_count_value
        · have h1 : ¬ ((next_count_value o.cl_ascii_range)^[i + 1] st.read_count_value ≠
              next_count_value o.cl_ascii_range v) := fun h => h hq.symm
          have h2 : ¬ ¬ (next_count_value o.cl_ascii_range v =
              (next_count_value o.cl_ascii_range)^[i + 1] st.read_count_value) := fun h => h hq
          rw [if_neg h1, if_neg h2, add_zero]
        · have h1 : (next_count_value o.cl_ascii_range)^[i + 1] st.read_count_value ≠
              next_count_value o.cl_ascii_range v := fun h => hq h.symm
          rw [if_pos h1, if_pos hq, add_assoc]
          rfl
      · have h0 : n - i - 1 = 0 := by omega
        simp [h0, fill_write_data, verify_loop, hlast]
    simp only [process_read_data, hlen, hn0, if_true, key]
  · intro ha hc hv256 _
    rw [ha] at hv ⊢
    rw [iterate_mod _ _ hc] at hv
    rw [iterate_mod _ _ hc, next_count_value_mod]
    omega

theorem single_corruption_resync_witness :
    process_read_data ⟨false, false, 0, false, false, 0, 0⟩ ⟨0, 7, [], 1024, 0, 0, 0⟩
        (some ((fill_write_data false 4 7).1.set 1 200)) =
      Except.ok ⟨0, 11, [], 1024, 0, 4, 2⟩ ∧
    next_count_value false 200 ≠ (next_count_value false)^[1 + 1] 7 :=
  ⟨(single_corruption_resync ⟨false, false, 0, false, false, 0, 0⟩ ⟨0, 7, [], 1024, 0, 0, 0⟩
      4 1 200 rfl (by decide) (by decide)).1,
   (single_corruption_resync ⟨false, false, 0, false, false, 0, 0⟩ ⟨0, 7, [], 1024, 0, 0, 0⟩
      4 1 200 rfl (by decide) (by decide)).2 rfl (by decide) (by decide) (by decide)⟩

/-- C1 fails as stated: modulo-256 policy, initial state (cursor 0), buffer
`[5, 1]`, which is the continuation `[0, 1]` with position 0 corrupted to 5. The
code counts two errors and ends on cursor 2; the claim asks for one error and
for cursor `next_count_value` applied `2 - 0` times to 5, which is 7. -/
theorem single_corruption_counterexample :
    (fill_write_data false 2 0).1.set 0 5 = [5, 1] ∧
    (5 : Nat) ≠ (next_count_value false)^[0] 0 ∧
    process_read_data ⟨false, false, 0, false, false, 0, 0⟩
        (initial_state ⟨false, false, 0, false, false, 0, 0⟩) (some [5, 1]) =
      Except.ok { initial_state ⟨false, false, 0, false, false, 0, 0⟩ with
        read_count_value := 2, read_count := 2, error_count := 2 } ∧
    (2 : Int) ≠ 0 + 1 ∧
    (2 : Nat) ≠ (next_count_value false)^[2 - 0] 5 :=
  ⟨rfl, by decide, rfl, by decide, by decide⟩

/-! ### Transmit path -/

theorem fill_write_data_take (a : Bool) (k n c : Nat) (hk : k ≤ n) :
    (fill_write_data a n c).1.take k = (fill_write_data a k c).1 := by
  obtain ⟨m, rfl⟩ : ∃ m, n = k + m := ⟨n - k, by omega⟩
  rw [fill_write_data_add]
  have h := fill_write_data_length a k c
  rw [List.take_append_of_le_length (by omega), List.take_of_length_le (by omega)]

theorem fill_write_data_getD (a : Bool) (n c k : Nat) (hk : k < n) :
    (fill_write_data a n c).1.getD k 0 = (next_count_value a)^[k] c := by
  rw [List.getD_eq_getElem?_getD, fill_write_data_getElem? a n c k hk]
  rfl

theorem accepted_cast (r : Int) : ((accepted r : Nat) : Int) = if r < 0 then 0 else r := by
  unfold accepted
  split <;> omega

/-- A pass whose `write` accepts fewer bytes than the chunk holds ends the loop
with the cursor on the first byte that was not accepted. -/
theorem write_loop_short (o : Options) (st : StreamState) (n : Nat) (r : Int) (rs : List Int)
    (count : Int) (rep : Bool) (wire : List Nat)
    (hsz : st.write_size = n) (hn : 1 ≤ n) (hr : r < n) :
    write_loop o (r :: rs) st count rep wire =
      some ({ st with
          write_data := (fill_write_data o.cl_ascii_range n st.write_count_value).1
          write_count_value := (next_count_value o.cl_ascii_range)^[accepted r] st.write_count_value },
        count + accepted r, rs,
        wire ++ (fill_write_data o.cl_ascii_range (accepted r) st.write_count_value).1) := by
  have hk : accepted r < n := by
    unfold accepted
    split <;> omega
  have hc : (if r < 0 then (0 : Int) else r) < (n : Int) := by
    split <;> omega
  simp only [write_loop, hsz, Int.toNat_ofNat, hc, if_true]
  rw [← accepted_cast]
  have ht : (if r < 0 then (0 : Int) else r).toNat = accepted r := rfl
  simp only [Int.toNat_ofNat, fill_write_data_getD _ _ _ _ hk,
    fill_write_data_take _ _ _ _ (le_of_lt hk)]

/-- A pass whose `write` accepts the whole chunk leaves the cursor `n` steps
further and either goes round again (`repeat` set) or ends the loop. -/
theorem write_loop_full (o : Options) (st : StreamState) (n : Nat) (rs : List Int)
    (count : Int) (rep : Bool) (wire : List Nat) (hsz : st.write_size = n) :
    write_loop o ((n : Int) :: rs) st count rep wire =
      if rep then
        write_loop o rs
          { st with
            write_data := (fill_write_data o.cl_ascii_range n st.write_count_value).1
            write_count_value := (next_count_value o.cl_ascii_range)^[n] st.write_count_value }
          (count + n) rep
          (wire ++ (fill_write_data o.cl_ascii_range n st.write_count_value).1)
      else
        some ({ st with
            write_data := (fill_write_data o.cl_ascii_range n st.write_count_value).1
            write_count_value := (next_count_value o.cl_ascii_range)^[n] st.write_count_value },
          count + n, rs,
          wire ++ (fill_write_data o.cl_ascii_range n st.write_count_value).1) := by
  have h0 : ¬ ((n : Int) < 0) := by omega
  have hl := fill_write_data_length o.cl_ascii_range n st.write_count_value
  simp only [write_loop, hsz, Int.toNat_ofNat, h0, if_false, lt_self_iff_false,
    fill_write_data_snd]
  rw [List.take_of_length_le (by omega)]

/-- Whatever the script of `write` return values, a loop that ends has put on
the wire exactly the next `t` values of the sequence, `t` being the number of
bytes it counted, and has left the cursor `t` steps further. -/
theorem write_loop_continuous (o : Options) (n : Nat) (hn : 1 ≤ n) (rep : Bool) :
    ∀ (dev : List Int) (st : StreamState) (count : Int) (wire : List Nat)
      (res : StreamState × Int × List Int × List Nat),
      st.write_size = n → (∀ r ∈ dev, r ≤ (n : Int)) →
      write_loop o dev st count rep wire = some res →
      ∃ t : Nat, res.2.1 = count + t ∧
        res.2.2.2 = wire ++ (fill_write_data o.cl_ascii_range t st.write_count_value).1 ∧
        res.1.write_count_value = (next_count_value o.cl_ascii_range)^[t] st.write_count_value ∧
        res.1.write_size = n ∧ res.1.write_count = st.write_count := by
  intro dev
  induction dev with
  | nil =>
    intro st count wire res _ _ h
    simp [write_loop] at h
  | cons r rs ih =>
    intro st count wire res hsz hall h
    by_cases hr : r < n
    · rw [write_loop_short o st n r rs count rep wire hsz hn hr] at h
      injection h with h
      subst h
      exact ⟨accepted r, rfl, rfl, rfl, hsz, rfl⟩
    · have hrn : r = n := le_antisymm (hall r (List.mem_cons_self _ _)) (not_lt.mp hr)
      subst hrn
      rw [write_loop_full o st n rs count rep wire hsz] at h
      cases rep with
      | false =>
        simp only [Bool.false_eq_true, if_false] at h
        injection h with h
        subst h
        exact ⟨n, rfl, rfl, rfl, hsz, rfl⟩
      | true =>
        simp only [if_true] at h
        obtain ⟨t, h1, h2, h3, h4, h5⟩ :=
          ih { st with
              write_data := (fill_write_data o.cl_ascii_range n st.write_count_value).1
              write_count_value := (next_count_value o.cl_ascii_range)^[n] st.write_count_value }
            (count + n) (wire ++ (fill_write_data o.cl_ascii_range n st.write_count_value).1)
            res hsz (fun x hx => hall x (List.mem_cons_of_mem _ hx)) h
        refine ⟨n + t, ?_, ?_, ?_, h4, h5⟩
        · rw [h1]; push_cast; omega
        · rw [h2, fill_write_data_add, List.append_assoc]
        · rw [h3, add_comm n t, Function.iterate_add_apply]

/-- In repeat mode, `m` fully accepted chunks followed by a short write end the
loop after `m * n + k` counted bytes, `k` being what the short write accepted. -/
theorem write_loop_repeat (o : Options) (n : Nat) (hn : 1 ≤ n) (r : Int) (hr : r < n)
    (rest : List Int) :
    ∀ (m : Nat) (st : StreamState) (count : Int) (wire : List Nat), st.write_size = n →
      write_loop o (List.replicate m (n : Int) ++ r :: rest) st count true wire =
        some ({ st with
            write_data := (fill_write_data o.cl_ascii_range n
              ((next_count_value o.cl_ascii_range)^[m * n] st.write_count_value)).1
            write_count_value :=
              (next_count_value o.cl_ascii_range)^[m * n + accepted r] st.write_count_value },
          count + ((m * n + accepted r : Nat) : Int), rest,
          wire ++ (fill_write_data o.cl_ascii_range (m * n + accepted r) st.write_count_value).1) := by
  intro m
  induction m with
  | zero =>
    intro st count wire hsz
    simp only [List.replicate, List.nil_append, Nat.zero_mul, Nat.zero_add,
      Function.iterate_zero, id_eq]
    exact write_loop_short o st n r rest count true wire hsz hn hr
  | succ m ih =>
    intro st count wire hsz
    simp only [List.replicate, List.cons_append]
    rw [write_loop_full o st n _ count true wire hsz, if_pos rfl,
      ih { st with
          write_data := (fill_write_data o.cl_ascii_range n st.write_count_value).1
          write_count_value := (next_count_value o.cl_ascii_range)^[n] st.write_count_value }
        (count + n) (wire ++ (fill_write_data o.cl_ascii_range n st.write_count_value).1) hsz]
    have e1 : (m + 1) * n = m * n + n := by ring
    have e2 : (m + 1) * n + accepted r = (m * n + accepted r) + n := by ring
    have e3 : (m + 1) * n + accepted r = n + (m * n + accepted r) := by ring
    simp only [← Function.iterate_add_apply, ← e1, ← e2]
    rw [List.append_assoc, ← fill_write_data_add, ← e3]
    have e4 : count + (n : Int) + ((m * n + accepted r : Nat) : Int) =
        count + (((m + 1) * n + accepted r : Nat) : Int) := by
      push_cast; ring
    rw [e4]

/-- C2: chunk size `n >= 1`, the device accepts only `k < n` bytes of the chunk
filled from cursor `c` (a negative return, would-block or hard error, counts as
`k = 0`). The call returns; the write cursor is the byte at buffer position `k`,
which is `next_count_value` applied `k` times to `c`; the next fill from that
cursor holds at position `j` the value at position `k + j` of the original
sequence; and a following call, short or not, leaves on the wire the
uninterrupted sequence from `c`, no gap and no repeat. -/
theorem short_write_resumes_sequence (o : Options) (st : StreamState) (n : Nat) (r : Int)
    (rs : List Int) (wire : List Nat)
    (hn : 1 ≤ n) (hsz : st.write_size = n) (hr : r < n) :
    ∃ st1 : StreamState,
      process_write_data o st ⟨r :: rs, wire⟩ =
        some (st1, ⟨rs, wire ++
          (fill_write_data o.cl_ascii_range (accepted r) st.write_count_value).1⟩) ∧
      accepted r < n ∧
      st1.write_count_value =
        (next_count_value o.cl_ascii_range)^[accepted r] st.write_count_value ∧
      st1.write_data[accepted r]? = some st1.write_count_value ∧
      st1.write_count = st.write_count + accepted r ∧
      (∀ j : Nat, j < n →
        (fill_write_data o.cl_ascii_range n st1.write_count_value).1[j]? =
          some ((next_count_value o.cl_ascii_range)^[accepted r + j] st.write_count_value)) ∧
      (∀ (r2 : Int) (rs2 : List Int), r2 < n →
        ∃ st2 : StreamState,
          process_write_data o st1 ⟨r2 :: rs2, wire ++
              (fill_write_data o.cl_ascii_range (accepted r) st.write_count_value).1⟩ =
            some (st2, ⟨rs2, wire ++
              (fill_write_data o.cl_ascii_range (accepted r + accepted r2)
                st.write_count_value).1⟩) ∧
          st2.write_count_value =
            (next_count_value o.cl_ascii_range)^[accepted r + accepted r2]
              st.write_count_value) ∧
      (∀ (d2 : List Int) (st2 : StreamState) (d3 : Device), (∀ x ∈ d2, x ≤ (n : Int)) →
        process_write_data o st1 ⟨d2, wire ++
            (fill_write_data o.cl_ascii_range (accepted r) st.write_count_value).1⟩ =
          some (st2, d3) →
        ∃ t : Nat,
          d3.wire = wire ++
            (fill_write_data o.cl_ascii_range (accepted r + t) st.write_count_value).1 ∧
          st2.write_count = st.write_count + accepted r + t ∧
          st2.write_count_value =
            (next_count_value o.cl_ascii_range)^[accepted r + t] st.write_count_value) := by
  have hk : accepted r < n := by
    unfold accepted
    split <;> omega
  refine ⟨{ st with
      write_data := (fill_write_data o.cl_ascii_range n st.write_count_value).1
      write_count_value := (next_count_value o.cl_ascii_range)^[accepted r] st.write_count_value
      write_count := st.write_count + accepted r }, ?_, hk, rfl, ?_, rfl, ?_, ?_, ?_⟩
  · simp only [process_write_data, write_loop_short o st n r rs 0 _ wire hsz hn hr, zero_add]
  · exact fill_write_data_getElem? _ _ _ _ hk
  · intro j hj
    rw [fill_write_data_getElem? _ _ _ _ hj]
    show some ((next_count_value o.cl_ascii_range)^[j]
      ((next_count_value o.cl_ascii_range)^[accepted r] st.write_count_value)) = _
    rw [← Function.iterate_add_apply, add_comm j]
  · intro r2 rs2 hr2
    refine ⟨{ st with
      write_data := (fill_write_data o.cl_ascii_range n
        ((next_count_value o.cl_ascii_range)^[accepted r] st.write_count_value)).1
      write_count_value :=
        (next_count_value o.cl_ascii_range)^[accepted r + accepted r2] st.write_count_value
      write_count := st.write_count + accepted r + accepted r2 }, ?_, rfl⟩
    · simp only [process_write_data]
      rw [write_loop_short o { st with
          write_data := (fill_write_data o.cl_ascii_range n st.write_count_value).1
          write_count_value :=
            (next_count_value o.cl_ascii_range)^[accepted r] st.write_count_value
          write_count := st.write_count + accepted r } n r2 rs2 0 _ _ hsz hn hr2]
      simp only [List.append_assoc, ← fill_write_data_add, ← Function.iterate_add_apply,
        add_comm (accepted r2), zero_add]
  · intro d2 st2 d3 hall h
    simp only [process_write_data] at h
    split at h
    · exact absurd h (by simp)
    · rename_i st3 count rs3 wire3 heq
      obtain ⟨t, h1, h2, h3, _, h5⟩ :=
        write_loop_continuous o n hn _ d2 { st with
            write_data := (fill_write_data o.cl_ascii_range n st.write_count_value).1
            write_count_value :=
              (next_count_value o.cl_ascii_range)^[accepted r] st.write_count_value
            write_count := st.write_count + accepted r }
          0 _ (st3, count, rs3, wire3) hsz hall heq
      injection h with h
      injection h with ha hb
      subst ha hb
      refine ⟨t, ?_, ?_, ?_⟩
      · simp only at h2 ⊢
        rw [h2, List.append_assoc, ← fill_write_data_add]
      · simp only at h1 h5 ⊢
        rw [h5, h1]; omega
      · simp only at h3 ⊢
        rw [h3, ← Function.iterate_add_apply, add_comm]

theorem short_write_resumes_sequence_witness :
    (∃ st1 : StreamState,
      process_write_data ⟨false, false, 4, false, false, 0, 0⟩ ⟨254, 0, [0, 0, 0, 0], 4, 0, 0, 0⟩
          ⟨[3, -1], []⟩ =
        some (st1, ⟨[-1], [] ++ (fill_write_data false (accepted 3) 254).1⟩) ∧
      accepted 3 < 4 ∧
      st1.write_count_value = (next_count_value false)^[accepted 3] 254 ∧
      st1.write_data[accepted 3]? = some st1.write_count_value ∧
      st1.write_count = 0 + accepted 3) ∧
    (∃ st1 : StreamState,
      process_write_data ⟨false, false, 4, false, false, 0, 0⟩ ⟨254, 0, [0, 0, 0, 0], 4, 0, 0, 0⟩
          ⟨[-1, 4], []⟩ =
        some (st1, ⟨[4], [] ++ (fill_write_data false (accepted (-1)) 254).1⟩) ∧
      accepted (-1) < 4 ∧
      st1.write_count_value = (next_count_value false)^[accepted (-1)] 254 ∧
      st1.write_data[accepted (-1)]? = some st1.write_count_value ∧
      st1.write_count = 0 + accepted (-1)) :=
  ⟨(short_write_resumes_sequence ⟨false, false, 4, false, false, 0, 0⟩
      ⟨254, 0, [0, 0, 0, 0], 4, 0, 0, 0⟩ 4 3 [-1] [] (by decide) rfl (by decide)).imp
      (fun _ h => ⟨h.1, h.2.1, h.2.2.1, h.2.2.2.1, h.2.2.2.2.1⟩),
   (short_write_resumes_sequence ⟨false, false, 4, false, false, 0, 0⟩
      ⟨254, 0, [0, 0, 0, 0], 4, 0, 0, 0⟩ 4 (-1) [4] [] (by decide) rfl (by decide)).imp
      (fun _ h => ⟨h.1, h.2.1, h.2.2.1, h.2.2.2.1, h.2.2.2.2.1⟩)⟩

/-- C6 (as the code behaves). With `_cl_tx_bytes` non-zero a call writes one
chunk: when the device accepts all `n` bytes, buffer position `i < n` held
`next_count_value` applied `i` times to `c`, the cursor after the call is
`next_count_value` applied `n` times to `c`, and `bytes_written` grew by `n`.
With `_cl_tx_bytes = 0` a fully accepted chunk makes the loop fill and write
again: after `m` fully accepted chunks and a write that accepts `k < n` bytes the
cursor is `next_count_value` applied `m * n + k` times to `c`, `bytes_written`
grew by `m * n + k`, and the wire received those `m * n + k` values in order. -/
theorem full_chunk_advances_cursor (o : Options) (st : StreamState) (n : Nat)
    (rs : List Int) (wire : List Nat) (hn : 1 ≤ n) (hsz : st.write_size = n) :
    (∀ i : Nat, i < n →
      (fill_write_data o.cl_ascii_range n st.write_count_value).1[i]? =
        some ((next_count_value o.cl_ascii_range)^[i] st.write_count_value)) ∧
    (o.cl_tx_bytes ≠ 0 →
      process_write_data o st ⟨(n : Int) :: rs, wire⟩ =
        some ({ st with
            write_data := (fill_write_data o.cl_ascii_range n st.write_count_value).1
            write_count_value := (next_count_value o.cl_ascii_range)^[n] st.write_count_value
            write_count := st.write_count + n },
          ⟨rs, wire ++ (fill_write_data o.cl_ascii_range n st.write_count_value).1⟩)) ∧
    (o.cl_tx_bytes = 0 → ∀ (m : Nat) (r : Int), r < n →
      process_write_data o st ⟨List.replicate m (n : Int) ++ r :: rs, wire⟩ =
        some ({ st with
            write_data := (fill_write_data o.cl_ascii_range n
              ((next_count_value o.cl_ascii_range)^[m * n] st.write_count_value)).1
            write_count_value :=
              (next_count_value o.cl_ascii_range)^[m * n + accepted r] st.write_count_value
            write_count := st.write_count + ((m * n + accepted r : Nat) : Int) },
          ⟨rs, wire ++
            (fill_write_data o.cl_ascii_range (m * n + accepted r) st.write_count_value).1⟩)) := by
  refine ⟨fun i hi => fill_write_data_getElem? _ _ _ _ hi, fun h => ?_, fun h m r hr => ?_⟩
  · simp only [process_write_data, h, decide_False, write_loop_full o st n rs 0 false wire hsz,
      Bool.false_eq_true, if_false, zero_add]
  · simp only [process_write_data, h, decide_True,
      write_loop_repeat o n hn r hr rs m st 0 wire hsz, zero_add]

theorem full_chunk_advances_cursor_witness :
    process_write_data ⟨false, false, 4, false, false, 0, 0⟩ ⟨254, 0, [0, 0, 0, 0], 4, 0, 0, 0⟩
        ⟨[4, 4], []⟩ =
      some (⟨2, 0, [254, 255, 0, 1], 4, 4, 0, 0⟩, ⟨[4], [254, 255, 0, 1]⟩) ∧
    process_write_data ⟨false, false, 0, false, false, 0, 0⟩ ⟨254, 0, [0, 0, 0, 0], 4, 0, 0, 0⟩
        ⟨[4, 4, 1, 4], []⟩ =
      some (⟨7, 0, [6, 7, 8, 9], 4, 9, 0, 0⟩, ⟨[4], [254, 255, 0, 1, 2, 3, 4, 5, 6]⟩) :=
  ⟨(full_chunk_advances_cursor ⟨false, false, 4, false, false, 0, 0⟩
      ⟨254, 0, [0, 0, 0, 0], 4, 0, 0, 0⟩ 4 [4] [] (by decide) rfl).2.1 (by decide),
   (full_chunk_advances_cursor ⟨false, false, 0, false, false, 0, 0⟩
      ⟨254, 0, [0, 0, 0, 0], 4, 0, 0, 0⟩ 4 [4] [] (by decide) rfl).2.2 rfl 2 1 (by decide)⟩

/-- C6 fails as stated in the default mode (`_cl_tx_bytes = 0`, chunks of 1024
bytes): from the initial state the first `write` accepts the whole chunk and the
second one 5 bytes. The call ends with cursor 5 and `bytes_written = 1029`; the
claim asks for `next_count_value` applied 1024 times to 0, which is 0, and for
`bytes_written = 1024`. -/
theorem full_chunk_counterexample :
    (initial_state ⟨false, false, 0, false, false, 0, 0⟩).write_size = 1024 ∧
    (initial_state ⟨false, false, 0, false, false, 0, 0⟩).write_count_value = 0 ∧
    (initial_state ⟨false, false, 0, false, false, 0, 0⟩).write_count = 0 ∧
    (process_write_data ⟨false, false, 0, false, false, 0, 0⟩
        (initial_state ⟨false, false, 0, false, false, 0, 0⟩) ⟨[1024, 5], []⟩).map
      (fun p => (p.1.write_count_value, p.1.write_count)) = some (5, 1029) ∧
    (next_count_value false)^[1024] 0 = 0 := by
  refine ⟨rfl, rfl, rfl, ?_, ?_⟩
  · have h := write_loop_repeat ⟨false, false, 0, false, false, 0, 0⟩ 1024 (by decide) 5
      (by decide) [] 1 (initial_state ⟨false, false, 0, false, false, 0, 0⟩) 0 [] rfl
    have hl : List.replicate 1 ((1024 : Nat) : Int) ++ [5] = [1024, 5] := rfl
    rw [hl] at h
    have hd : decide ((⟨false, false, 0, false, false, 0, 0⟩ : Options).cl_tx_bytes = 0) = true :=
      rfl
    unfold process_write_data
    rw [hd, h]
    simp only [Option.map_some']
    have hk : accepted 5 = 5 := rfl
    have hi : (initial_state ⟨false, false, 0, false, false, 0, 0⟩).write_count_value = 0 := rfl
    have hw : (initial_state ⟨false, false, 0, false, false, 0, 0⟩).write_count = 0 := rfl
    rw [hk, hi, hw, iterate_mod _ _ (by decide)]
    rfl
  · rw [iterate_mod _ _ (by decide)]

/-! ### Machine integers -/

theorem wrap32_of_range (x : Int) (h0 : -2147483648 ≤ x) (h1 : x < 2147483648) :
    wrap32 x = x := by
  unfold wrap32
  omega

/-! ### Exit status -/

theorem wrap64_of_range (x : Int) (h0 : -9223372036854775808 ≤ x)
    (h1 : x < 9223372036854775808) : wrap64 x = x := by
  unfold wrap64
  omega

/-- C4 (as the code behaves): for non-negative counters whose sum
`|bytes_written - bytes_read| + error_count` stays below `2^63`, so that no
`long long` operation overflows, the exit status at normal loop termination is
`min(125, |bytes_written - bytes_read| + error_count)`; it lies in `0..125` and is
0 exactly when `bytes_written = bytes_read` and `error_count = 0`. Of the three
sign conditions only the one on `error_count` is used. -/
theorem exit_status_is_capped_sum (st : StreamState) (he : 0 ≤ st.error_count)
    (hsum : |st.write_count - st.read_count| + st.error_count < 9223372036854775808) :
    main_exit_status st = min 125 (|st.write_count - st.read_count| + st.error_count) ∧
    0 ≤ main_exit_status st ∧ main_exit_status st ≤ 125 ∧
    (main_exit_status st = 0 ↔ st.write_count = st.read_count ∧ st.error_count = 0) := by
  have hnn : 0 ≤ |st.write_count - st.read_count| := abs_nonneg _
  have hz : |st.write_count - st.read_count| = 0 ↔ st.write_count = st.read_count := by
    rw [abs_eq_zero]; omega
  have hlt : |st.write_count - st.read_count| < 9223372036854775808 := by omega
  have hd := abs_lt.mp hlt
  have hval : main_exit_status st =
      if |st.write_count - st.read_count| + st.error_count > 125 then 125
      else wrap32 (|st.write_count - st.read_count| + st.error_count) := by
    unfold main_exit_status
    simp only []
    rw [wrap64_of_range (st.write_count - st.read_count) (by omega) (by omega),
      Int.natCast_natAbs, wrap64_of_range _ (by omega) hlt,
      wrap64_of_range _ (by omega) hsum]
  rw [hval]
  by_cases h : |st.write_count - st.read_count| + st.error_count > 125
  · simp only [h, if_true]
    refine ⟨?_, by norm_num, le_refl _, ?_⟩
    · rw [min_eq_left (le_of_lt h)]
    · constructor
      · intro h0; norm_num at h0
      · rintro ⟨h1, h2⟩
        rw [hz.mpr h1, h2] at h
        norm_num at h
  · simp only [h, if_false]
    have hle : |st.write_count - st.read_count| + st.error_count ≤ 125 := not_lt.mp h
    rw [wrap32_of_range _ (by omega) (by omega), min_eq_right hle]
    refine ⟨rfl, by omega, hle, ?_⟩
    constructor
    · intro h0
      have h1 : |st.write_count - st.read_count| = 0 := by omega
      exact ⟨hz.mp h1, by omega⟩
    · rintro ⟨h1, h2⟩
      rw [hz.mpr h1, h2]; rfl

theorem exit_status_is_capped_sum_witness :
    main_exit_status ⟨0, 0, [], 1024, 2048, 2000, 3⟩ = min 125 (|(2048 : Int) - 2000| + 3) ∧
    0 ≤ main_exit_status ⟨0, 0, [], 1024, 2048, 2000, 3⟩ ∧
    main_exit_status ⟨0, 0, [], 1024, 2048, 2000, 3⟩ ≤ 125 ∧
    (main_exit_status ⟨0, 0, [], 1024, 2048, 2000, 3⟩ = 0 ↔
      (2048 : Int) = 2000 ∧ (3 : Int) = 0) :=
  exit_status_is_capped_sum ⟨0, 0, [], 1024, 2048, 2000, 3⟩ (by decide) (by decide)

/-- C4 fails as stated: with `bytes_written = 2^63 - 1`, `bytes_read = 0` and
`error_count = 1`, all non-negative, the sum leaves the `long long` range, the
comparison with 125 fails on the wrapped value and the conversion to `int`
gives exit status 0, where the claim asks for `min(125, 2^63) = 125` and allows
0 only for equal byte counts. -/
theorem exit_status_counterexample :
    main_exit_status { initial_state ⟨false, false, 0, false, false, 0, 0⟩ with
      write_count := 9223372036854775807, read_count := 0, error_count := 1 } = 0 ∧
    min (125 : Int) (|(9223372036854775807 : Int) - 0| + 1) = 125 ∧
    (9223372036854775807 : Int) ≠ 0 := by
  refine ⟨by decide, by norm_num, by decide⟩

/-! ### Divisor solver -/

/-- Inside the `int` range the divisor is the floor of
`(baud_base + speed / 2) / speed`. -/
theorem custom_divisor_eq (speed baud_base : Int) (hs : 0 < speed) (hb : 0 ≤ baud_base)
    (hov : baud_base + speed / 2 < 2147483648) :
    custom_divisor speed baud_base = (baud_base + speed / 2) / speed := by
  have h2 : 0 ≤ speed / 2 := by omega
  have hq0 : 0 ≤ (baud_base + speed / 2) / speed := Int.ediv_nonneg (by omega) (le_of_lt hs)
  have hq1 : (baud_base + speed / 2) / speed ≤ baud_base + speed / 2 :=
    Int.ediv_le_self _ (by omega)
  unfold custom_divisor
  rw [Int.tdiv_eq_ediv (le_of_lt hs) (by norm_num), wrap32_of_range _ (by omega) hov,
    Int.tdiv_eq_ediv (by omega) (le_of_lt hs), wrap32_of_range _ (by omega) (by omega)]

/-- C10 (as the code behaves): for `speed > 0` and `baud_base >= 0` whose sum
`baud_base + speed/2` stays inside the `int` range (at most `2^31 - 1`, no
overflow in the addition) the computed `custom_divisor` is at least 1, so that
`baud_base / custom_divisor` is defined, if and only if
`baud_base + floor(speed/2) >= speed`; for smaller base clocks, `baud_base = 0`
included, the divisor is 0 and the code goes on to divide by it. -/
theorem divisor_zero_iff_small_base (speed baud_base : Int) (hs : 0 < speed)
    (hb : 0 ≤ baud_base) (hov : baud_base + speed / 2 < 2147483648) :
    (1 ≤ custom_divisor speed baud_base ↔ speed ≤ baud_base + speed / 2) ∧
    (baud_base + speed / 2 < speed →
      custom_divisor speed baud_base = 0 ∧
      ∀ ok : Bool, set_baud_divisor speed (some baud_base) ok = BaudOutcome.divide_by_zero) ∧
    (baud_base = 0 → custom_divisor speed baud_base = 0) := by
  have h2 : 0 ≤ speed / 2 := by omega
  have hz : baud_base + speed / 2 < speed → custom_divisor speed baud_base = 0 := by
    intro h
    rw [custom_divisor_eq speed baud_base hs hb hov]
    exact Int.ediv_eq_zero_of_lt (by omega) h
  refine ⟨?_, fun h => ⟨hz h, fun ok => ?_⟩, fun h => hz (by omega)⟩
  · rw [custom_divisor_eq speed baud_base hs hb hov, Int.le_ediv_iff_mul_le hs, one_mul]
  · have hne : speed ≠ 0 := by omega
    simp only [set_baud_divisor, hne, if_false, hz h, if_true]

theorem divisor_zero_iff_small_base_witness :
    (1 ≤ custom_divisor 115200 24000000 ↔ (115200 : Int) ≤ 24000000 + 115200 / 2) ∧
    (custom_divisor 250000 115200 = 0 ∧
      set_baud_divisor 250000 (some 115200) true = BaudOutcome.divide_by_zero) :=
  ⟨(divisor_zero_iff_small_base 115200 24000000 (by decide) (by decide) (by decide)).1,
   ((divisor_zero_iff_small_base 250000 115200 (by decide) (by decide) (by decide)).2.1
     (by decide)).1,
   ((divisor_zero_iff_small_base 250000 115200 (by decide) (by decide) (by decide)).2.1
     (by decide)).2 true⟩

/-- C10 fails as stated: `speed = 4 > 0` and `baud_base = 2^31 - 1 >= 0` satisfy
`baud_base + floor(speed/2) >= speed`, but the `int` addition overflows and the
computed divisor is -536870911, not at least 1; with
`speed = baud_base = 2000000000` the same overflow gives divisor 0 and the
division by zero although `baud_base + floor(speed/2) >= speed`. -/
theorem divisor_zero_counterexample :
    (4 : Int) ≤ 2147483647 + 4 / 2 ∧
    custom_divisor 4 2147483647 = -536870911 ∧
    ¬ (1 ≤ custom_divisor 4 2147483647) ∧
    (2000000000 : Int) ≤ 2000000000 + 2000000000 / 2 ∧
    custom_divisor 2000000000 2000000000 = 0 ∧
    set_baud_divisor 2000000000 (some 2000000000) true = BaudOutcome.divide_by_zero := by
  decide

/-- The divisor is `baud_base / speed` rounded to the nearest integer, halves up. -/
theorem divisor_is_rounded (speed baud_base : Int) (hs : 0 < speed) :
    (baud_base + speed / 2) / speed = (2 * baud_base + speed) / (2 * speed) := by
  have h2s : 0 < 2 * speed := by omega
  have ha := Int.ediv_mul_le (baud_base + speed / 2) (ne_of_gt hs)
  have hb := Int.lt_ediv_add_one_mul_self (baud_base + speed / 2) hs
  have hh : 2 * (speed / 2) ≤ speed ∧ speed ≤ 2 * (speed / 2) + 1 := by omega
  apply le_antisymm
  · rw [Int.le_ediv_iff_mul_le h2s]
    nlinarith [ha, hh.1]
  · have : (2 * baud_base + speed) / (2 * speed) < (baud_base + speed / 2) / speed + 1 := by
      rw [Int.ediv_lt_iff_lt_mul h2s]
      nlinarith [hb, hh.2]
    omega

/-- C5 (as the code behaves), for `0 < speed`, `speed * 102` and
`baud_base + speed/2` inside the `int` range and a divisor of at least 1. The
solver computes `divisor = round(baud_base / speed)` and
`achievable = floor(baud_base / divisor)`, and fails fatally exactly when
`achievable < floor(speed * 98 / 100)` or `achievable > floor(speed * 102 / 100)`.
So an accepted rate satisfies `98 * speed - 100 < 100 * achievable <= 102 * speed`:
at most 2% above the request, and less than one unit below 98% of it. For
`speed = 100000` and `baud_base = 24000000` the divisor is 240, the achievable
rate 100000, and the divisor is installed. -/
theorem divisor_solver_tolerance (speed baud_base : Int) (ok : Bool)
    (hs : 0 < speed) (hs2 : speed * 102 < 2147483648) (hb : 0 ≤ baud_base)
    (hov : baud_base + speed / 2 < 2147483648) (hd : speed ≤ baud_base + speed / 2) :
    custom_divisor speed baud_base = (2 * baud_base + speed) / (2 * speed) ∧
    set_baud_divisor speed (some baud_base) ok =
      (if baud_base / custom_divisor speed baud_base < speed * 98 / 100 ∨
          baud_base / custom_divisor speed baud_base > speed * 102 / 100 then
        BaudOutcome.cannot_set speed (baud_base / custom_divisor speed baud_base)
      else if ok then
        BaudOutcome.installed (baud_base / custom_divisor speed baud_base) baud_base
          (custom_divisor speed baud_base)
      else
        BaudOutcome.tiocsserial_failed (baud_base / custom_divisor speed baud_base) baud_base
          (custom_divisor speed baud_base)) ∧
    (∀ c b d : Int, set_baud_divisor speed (some baud_base) ok = BaudOutcome.installed c b d →
      d = custom_divisor speed baud_base ∧ c = baud_base / d ∧
      98 * speed - 100 < 100 * c ∧ 100 * c ≤ 102 * speed) ∧
    set_baud_divisor 100000 (some 24000000) true = BaudOutcome.installed 100000 24000000 240 := by
  have hdiv := custom_divisor_eq speed baud_base hs hb hov
  have h2 : 0 ≤ speed / 2 := by omega
  have hd1 : 1 ≤ custom_divisor speed baud_base := by
    rw [hdiv, Int.le_ediv_iff_mul_le hs, one_mul]; exact hd
  have hc0 : 0 ≤ baud_base / custom_divisor speed baud_base :=
    Int.ediv_nonneg hb (by omega)
  have hc1 : baud_base / custom_divisor speed baud_base ≤ baud_base :=
    Int.ediv_le_self _ hb
  have hrun : set_baud_divisor speed (some baud_base) ok =
      (if baud_base / custom_divisor speed baud_base < speed * 98 / 100 ∨
          baud_base / custom_divisor speed baud_base > speed * 102 / 100 then
        BaudOutcome.cannot_set speed (baud_base / custom_divisor speed baud_base)
      else if ok then
        BaudOutcome.installed (baud_base / custom_divisor speed baud_base) baud_base
          (custom_divisor speed baud_base)
      else
        BaudOutcome.tiocsserial_failed (baud_base / custom_divisor speed baud_base) baud_base
          (custom_divisor speed baud_base)) := by
    have hne : speed ≠ 0 := by omega
    have hdne : custom_divisor speed baud_base ≠ 0 := by omega
    simp only [set_baud_divisor, hne, hdne, if_false]
    rw [Int.tdiv_eq_ediv hb (by omega), wrap32_of_range _ (by omega) (by omega),
      wrap32_of_range (speed * 98) (by omega) (by omega),
      wrap32_of_range (speed * 102) (by omega) (by omega),
      Int.tdiv_eq_ediv (by omega) (by norm_num), Int.tdiv_eq_ediv (by omega) (by norm_num)]
  refine ⟨by rw [hdiv, divisor_is_rounded speed baud_base hs], hrun, ?_, by decide⟩
  intro c b d h
  rw [hrun] at h
  split at h
  · exact absurd h (by simp)
  · rename_i hin
    have hin1 : ¬ (baud_base / custom_divisor speed baud_base < speed * 98 / 100) :=
      fun hx => hin (Or.inl hx)
    have hin2 : ¬ (baud_base / custom_divisor speed baud_base > speed * 102 / 100) :=
      fun hx => hin (Or.inr hx)
    split at h
    · injection h with h1 h2 h3
      subst h1 h2 h3
      refine ⟨rfl, rfl, ?_, ?_⟩ <;> omega
    · exact absurd h (by simp)

theorem divisor_solver_tolerance_witness :
    custom_divisor 100000 24000000 = (2 * 24000000 + 100000) / (2 * 100000) ∧
    set_baud_divisor 100000 (some 24000000) true =
      BaudOutcome.installed 100000 24000000 240 :=
  ⟨(divisor_solver_tolerance 100000 24000000 true (by decide) (by decide) (by decide)
      (by decide) (by decide)).1,
   (divisor_solver_tolerance 100000 24000000 true (by decide) (by decide) (by decide)
      (by decide) (by decide)).2.2.2⟩

/-- C5 fails as stated: for `speed = 4898` on a base clock of 115200 the solver
computes divisor 24 and achievable rate 4800 and installs the divisor, although
4800 lies below `4898 * 0.98 = 4800.04`, outside the 2% band. -/
theorem divisor_solver_counterexample :
    set_baud_divisor 4898 (some 115200) true = BaudOutcome.installed 4800 115200 24 ∧
    (115200 : Int) = 24 * 4800 ∧
    (100 : Int) * 4800 < 98 * 4898 := by
  decide

/-! ### Event loop gates -/

/-- For normalised timestamps, `t2` not after `t1` and less than `2^31`
milliseconds apart, `diff_ms` is the elapsed time in nanoseconds divided by
`10^6`, rounded down. -/
theorem diff_ms_floor (t1 t2 : timespec)
    (h1 : 0 ≤ t1.tv_nsec ∧ t1.tv_nsec < 1000000000)
    (h2 : 0 ≤ t2.tv_nsec ∧ t2.tv_nsec < 1000000000)
    (h0 : 0 ≤ elapsed_ns t1 t2)
    (hr : elapsed_ns t1 t2 < 2147483648 * 1000000) :
    diff_ms t1 t2 = elapsed_ns t1 t2 / 1000000 := by
  unfold elapsed_ns at h0 hr ⊢
  unfold diff_ms
  by_cases hn : t1.tv_nsec - t2.tv_nsec < 0
  · simp only [hn, if_true]
    rw [Int.tdiv_eq_ediv (by omega) (by norm_num), wrap32_of_range _ (by omega) (by omega)]
    omega
  · simp only [hn, if_false]
    rw [Int.tdiv_eq_ediv (by omega) (by norm_num), wrap32_of_range _ (by omega) (by omega)]
    omega

/-- The read-inactivity message in terms of the values `diff_ms` returns: never
under the loopback-drain exception; otherwise, reading enabled and the gate of
the check open, exactly when `diff_ms(current, last_read) > 2000`. -/
theorem inactivity_check_rx_message (o : Options) (ls : LoopState) (current : timespec) :
    (o.cl_no_tx = true → ls.stream.write_count = ls.stream.read_count →
      ls.stream.write_count ≠ 0 →
      ∀ ms : Int, Message.no_data_received ms ∉ (inactivity_check o ls current).2) ∧
    (diff_ms current ls.last_timeout > 1000 →
      ¬ (o.cl_no_tx = true ∧ ls.stream.write_count = ls.stream.read_count ∧
          ls.stream.write_count ≠ 0) →
      o.cl_no_rx = false →
      ((∃ ms : Int, Message.no_data_received ms ∈ (inactivity_check o ls current).2) ↔
        diff_ms current ls.last_read > 2000) ∧
      (∀ ms : Int, Message.no_data_received ms ∈ (inactivity_check o ls current).2 →
        ms = diff_ms current ls.last_read)) := by
  constructor
  · intro htx heq hne ms
    have hcond : (o.cl_no_tx && decide (ls.stream.write_count ≠ 0) &&
        decide (ls.stream.write_count = ls.stream.read_count)) = true := by
      simp only [Bool.and_eq_true, decide_eq_true_eq]
      exact ⟨⟨htx, hne⟩, heq⟩
    unfold inactivity_check
    simp only [hcond, if_true, Bool.false_or, Bool.false_eq_true, if_false, List.nil_append]
    split
    · split
      · simp
      · simp
    · simp
  · intro hgate hsup hrx
    have hcond : (o.cl_no_tx && decide (ls.stream.write_count ≠ 0) &&
        decide (ls.stream.write_count = ls.stream.read_count)) = false := by
      by_contra hc
      simp only [Bool.not_eq_false, Bool.and_eq_true, decide_eq_true_eq] at hc
      exact hsup ⟨hc.1.1, hc.2, hc.1.2⟩
    unfold inactivity_check
    simp only [hgate, if_true, hcond, hrx, Bool.not_false, Bool.true_and, Bool.false_eq_true,
      if_false]
    by_cases hr : diff_ms current ls.last_read > 2000
    · simp [hr]
    · by_cases ht : (!o.cl_no_tx && decide (diff_ms current ls.last_write > 2000)) = true
      · simp [hr, ht]
      · simp [hr, ht]

/-- C8 (as the code behaves): in the inactivity check, with writing disabled and
`bytes_written` equal to `bytes_read` and non-zero, no read-inactivity message is
printed whatever the timestamps. In every other state with reading enabled, for
normalised timestamps less than `2^31` ms apart and once more than 1000 whole
milliseconds have passed since the last reported timeout, the message is printed
exactly when the time elapsed since the last read, rounded down to whole
milliseconds, exceeds 2000, that is when at least 2.001 s have elapsed; it
reports that number of milliseconds. -/
theorem rx_warning_rule (o : Options) (ls : LoopState) (current : timespec) :
    (o.cl_no_tx = true → ls.stream.write_count = ls.stream.read_count →
      ls.stream.write_count ≠ 0 →
      ∀ ms : Int, Message.no_data_received ms ∉ (inactivity_check o ls current).2) ∧
    ((0 ≤ current.tv_nsec ∧ current.tv_nsec < 1000000000) →
      (0 ≤ ls.last_read.tv_nsec ∧ ls.last_read.tv_nsec < 1000000000) →
      (0 ≤ ls.last_timeout.tv_nsec ∧ ls.last_timeout.tv_nsec < 1000000000) →
      (0 ≤ elapsed_ns current ls.last_read ∧
        elapsed_ns current ls.last_read < 2147483648 * 1000000) →
      elapsed_ns current ls.last_timeout < 2147483648 * 1000000 →
      1000 < elapsed_ns current ls.last_timeout / 1000000 →
      ¬ (o.cl_no_tx = true ∧ ls.stream.write_count = ls.stream.read_count ∧
          ls.stream.write_count ≠ 0) →
      o.cl_no_rx = false →
      ((∃ ms : Int, Message.no_data_received ms ∈ (inactivity_check o ls current).2) ↔
        2000 < elapsed_ns current ls.last_read / 1000000) ∧
      ((∃ ms : Int, Message.no_data_received ms ∈ (inactivity_check o ls current).2) ↔
        2001000000 ≤ elapsed_ns current ls.last_read) ∧
      (∀ ms : Int, Message.no_data_received ms ∈ (inactivity_check o ls current).2 →
        ms = elapsed_ns current ls.last_read / 1000000)) := by
  refine ⟨(inactivity_check_rx_message o ls current).1, ?_⟩
  intro hc hr ht hre hte hgate hsup hrx
  have hdr : diff_ms current ls.last_read = elapsed_ns current ls.last_read / 1000000 :=
    diff_ms_floor current ls.last_read hc hr hre.1 hre.2
  have hdt : diff_ms current ls.last_timeout = elapsed_ns current ls.last_timeout / 1000000 :=
    diff_ms_floor current ls.last_timeout hc ht (by omega) hte
  have h := (inactivity_check_rx_message o ls current).2 (by rw [hdt]; exact hgate) hsup hrx
  rw [hdr] at h
  refine ⟨h.1, ?_, h.2⟩
  rw [h.1]
  omega

theorem rx_warning_rule_witness :
    (Message.no_data_received 60000 ∉
      (inactivity_check ⟨false, false, 0, false, true, 0, 0⟩
        ⟨⟨0, 0, [], 1024, 4096, 4096, 0⟩, ⟨40, 0⟩, ⟨40, 0⟩, ⟨98, 0⟩⟩ ⟨100, 0⟩).2) ∧
    ((∃ ms : Int, Message.no_data_received ms ∈
        (inactivity_check ⟨false, false, 0, false, true, 0, 0⟩
          ⟨⟨0, 0, [], 1024, 4096, 4000, 0⟩, ⟨40, 0⟩, ⟨40, 0⟩, ⟨98, 0⟩⟩ ⟨100, 0⟩).2) ↔
      2001000000 ≤ elapsed_ns ⟨100, 0⟩ ⟨40, 0⟩) ∧
    ((∃ ms : Int, Message.no_data_received ms ∈
        (inactivity_check ⟨false, false, 0, false, false, 0, 0⟩
          ⟨⟨0, 0, [], 1024, 0, 0, 0⟩, ⟨100, 0⟩, ⟨102, 0⟩, ⟨100, 0⟩⟩ ⟨102, 999999⟩).2) ↔
      2001000000 ≤ elapsed_ns ⟨102, 999999⟩ ⟨100, 0⟩) :=
  ⟨(rx_warning_rule ⟨false, false, 0, false, true, 0, 0⟩
      ⟨⟨0, 0, [], 1024, 4096, 4096, 0⟩, ⟨40, 0⟩, ⟨40, 0⟩, ⟨98, 0⟩⟩ ⟨100, 0⟩).1
      rfl rfl (by decide) 60000,
   ((rx_warning_rule ⟨false, false, 0, false, true, 0, 0⟩
      ⟨⟨0, 0, [], 1024, 4096, 4000, 0⟩, ⟨40, 0⟩, ⟨40, 0⟩, ⟨98, 0⟩⟩ ⟨100, 0⟩).2
      (by decide) (by decide) (by decide) (by decide) (by decide) (by decide) (by decide)
      rfl).2.1,
   ((rx_warning_rule ⟨false, false, 0, false, false, 0, 0⟩
      ⟨⟨0, 0, [], 1024, 0, 0, 0⟩, ⟨100, 0⟩, ⟨102, 0⟩, ⟨100, 0⟩⟩ ⟨102, 999999⟩).2
      (by decide) (by decide) (by decide) (by decide) (by decide) (by decide) (by decide)
      rfl).2.1⟩

/-- C8 fails as stated: reading and writing enabled, initial stream state, last
read and last reported timeout at 100 s, last write at 102 s, check at
102.000999999 s. More than 2 s have elapsed since the last read and the gate of
the check is open (`diff_ms` is 2000 against the bound 1000), but `diff_ms` for
the last read is 2000 as well, not above 2000, and nothing is printed. -/
theorem rx_warning_counterexample :
    elapsed_ns ⟨102, 999999⟩ ⟨100, 0⟩ = 2000999999 ∧
    (2 : Int) * 1000000000 < elapsed_ns ⟨102, 999999⟩ ⟨100, 0⟩ ∧
    diff_ms ⟨102, 999999⟩ ⟨100, 0⟩ = 2000 ∧
    (⟨false, false, 0, false, false, 0, 0⟩ : Options).cl_no_rx = false ∧
    (inactivity_check ⟨false, false, 0, false, false, 0, 0⟩
      ⟨initial_state ⟨false, false, 0, false, false, 0, 0⟩, ⟨100, 0⟩, ⟨102, 0⟩, ⟨100, 0⟩⟩
      ⟨102, 999999⟩).2 = [] := by
  refine ⟨by decide, by decide, by decide, rfl, by decide⟩

end SerialTest
